import Mathlib

/-
Verification development for the state-transition core in `src/app.rs` of the
xplr terminal file explorer.  The Rust code is shallowly embedded: each pure
data type becomes a Lean structure or inductive, each handler method on `App`
(whose Rust `Result` body never errs) becomes a pure Lean function, and the
`Result`-returning dispatch `handle_external` returns `Except String App`
(only `Terminate` produces an error, via `bail!("terminated")`).

Machine integers (`usize`) are modelled as `Nat`; the saturating patterns in
the source (`x.max(1) - 1`, `focus.max(index) - index`) coincide with Lean's
truncated `Nat` subtraction on those expressions.  `Utc::now()` timestamps on
tasks and logs are modelled by a monotone counter `clock` stored in the state:
each creation of a `Task`/`Log` reads and increments it, which captures the
monotone-clock assumption the scheduler's FIFO behaviour rests on.
`HashMap<String, _>` is modelled as an association list with `lookupStr` /
`insertStr` / `modifyStr` (insert keeps keys unique).  `BinaryHeap::pop`
(which removes a greatest element w.r.t. `Ord for Task`) is modelled by
`popMaxTask`, which removes a maximal element w.r.t. the embedded comparator
`taskCmp`.  Filesystem queries (`is_dir`, `Path::parent`, `Path::file_name`)
are abstracted into an environment record `Env`, and Rust's
`parse::<usize>().ok()` is modelled by `strToNat`.
-/

namespace Xplr

/-- Embeds `struct Node` from app.rs (one filesystem entry with cached
metadata).  Equality is structural, as derived in Rust. -/
structure Node where
  parent : String
  relative_path : String
  absolute_path : String
  extension : String
  is_symlink : Bool
  is_dir : Bool
  is_file : Bool
  is_readonly : Bool
  mime_essence : String
  deriving DecidableEq

/-- Embeds `struct DirectoryBuffer` from app.rs. -/
structure DirectoryBuffer where
  parent : String
  nodes : List Node
  total : Nat
  focus : Nat
  deriving DecidableEq

/-- Embeds `DirectoryBuffer::new`: caches `total = nodes.len()`. -/
def DirectoryBuffer.new (parent : String) (nodes : List Node) (focus : Nat) :
    DirectoryBuffer :=
  { parent := parent, nodes := nodes, total := nodes.length, focus := focus }

/-- Embeds `DirectoryBuffer::focused_node`: `self.nodes.get(self.focus)`. -/
def DirectoryBuffer.focused_node (d : DirectoryBuffer) : Option Node :=
  d.nodes[d.focus]?

/-- Embeds `enum NodeFilter` from app.rs: the 16 path-predicate kinds. -/
inductive NodeFilter where
  | RelativePathIs
  | RelativePathIsNot
  | RelativePathDoesStartWith
  | RelativePathDoesNotStartWith
  | RelativePathDoesContain
  | RelativePathDoesNotContain
  | RelativePathDoesEndWith
  | RelativePathDoesNotEndWith
  | AbsolutePathIs
  | AbsolutePathIsNot
  | AbsolutePathDoesStartWith
  | AbsolutePathDoesNotStartWith
  | AbsolutePathDoesContain
  | AbsolutePathDoesNotContain
  | AbsolutePathDoesEndWith
  | AbsolutePathDoesNotEndWith
  deriving DecidableEq

/-- Helper for `strContainsSub`: list-of-characters prefix test. -/
def listStartsWith : List Char → List Char → Bool
  | _, [] => true
  | [], _ :: _ => false
  | c :: cs, p :: ps => c == p && listStartsWith cs ps

/-- Helper for `strContainsSub`: does `pat` occur contiguously in the list? -/
def listHasInfix : List Char → List Char → Bool
  | [], pat => pat.isEmpty
  | c :: cs, pat => listStartsWith (c :: cs) pat || listHasInfix cs pat

/-- Models Rust `str::contains` (substring containment). -/
def strContainsSub (s pat : String) : Bool :=
  listHasInfix s.toList pat.toList

/-- Models Rust `str::starts_with`, computed on the character list. -/
def strStartsWith (s pat : String) : Bool :=
  listStartsWith s.toList pat.toList

/-- Models Rust `str::ends_with`, computed on the character list. -/
def strEndsWith (s pat : String) : Bool :=
  listStartsWith s.toList.reverse pat.toList.reverse

/-- Models Rust `str::to_lowercase` by per-character case folding. -/
def strToLower (s : String) : String :=
  String.mk (s.toList.map Char.toLower)

/-- Models Rust `str::parse::<usize>().ok()`: a non-empty all-digit string
parses to its value; anything else is `none` (the leading `+` Rust would also
accept, and machine-word overflow, are not modelled). -/
def strToNat (s : String) : Option Nat :=
  if s.toList.isEmpty then none
  else if s.toList.all (fun c => c.isDigit) then
    some (s.toList.foldl (fun n c => n * 10 + (c.toNat - 48)) 0)
  else none

/-- Embeds `NodeFilter::apply` from app.rs.  Rust's `to_lowercase` is
modelled by `strToLower` (per-character case folding). -/
def NodeFilter.apply (f : NodeFilter) (node : Node) (input : String)
    (case_sensitive : Bool) : Bool :=
  match f with
  | .RelativePathIs =>
    if case_sensitive then node.relative_path == input
    else strToLower node.relative_path == strToLower input
  | .RelativePathIsNot =>
    if case_sensitive then node.relative_path != input
    else strToLower node.relative_path != strToLower input
  | .RelativePathDoesStartWith =>
    if case_sensitive then strStartsWith node.relative_path input
    else strStartsWith (strToLower node.relative_path) (strToLower input)
  | .RelativePathDoesNotStartWith =>
    if case_sensitive then !(strStartsWith node.relative_path input)
    else !(strStartsWith (strToLower node.relative_path) (strToLower input))
  | .RelativePathDoesContain =>
    if case_sensitive then strContainsSub node.relative_path input
    else strContainsSub (strToLower node.relative_path) (strToLower input)
  | .RelativePathDoesNotContain =>
    if case_sensitive then !(strContainsSub node.relative_path input)
    else !(strContainsSub (strToLower node.relative_path) (strToLower input))
  | .RelativePathDoesEndWith =>
    if case_sensitive then strEndsWith node.relative_path input
    else strEndsWith (strToLower node.relative_path) (strToLower input)
  | .RelativePathDoesNotEndWith =>
    if case_sensitive then !(strEndsWith node.relative_path input)
    else !(strEndsWith (strToLower node.relative_path) (strToLower input))
  | .AbsolutePathIs =>
    if case_sensitive then node.absolute_path == input
    else strToLower node.absolute_path == strToLower input
  | .AbsolutePathIsNot =>
    if case_sensitive then node.absolute_path != input
    else strToLower node.absolute_path != strToLower input
  | .AbsolutePathDoesStartWith =>
    if case_sensitive then strStartsWith node.absolute_path input
    else strStartsWith (strToLower node.absolute_path) (strToLower input)
  | .AbsolutePathDoesNotStartWith =>
    if case_sensitive then !(strStartsWith node.absolute_path input)
    else !(strStartsWith (strToLower node.absolute_path) (strToLower input))
  | .AbsolutePathDoesContain =>
    if case_sensitive then strContainsSub node.absolute_path input
    else strContainsSub (strToLower node.absolute_path) (strToLower input)
  | .AbsolutePathDoesNotContain =>
    if case_sensitive then !(strContainsSub node.absolute_path input)
    else !(strContainsSub (strToLower node.absolute_path) (strToLower input))
  | .AbsolutePathDoesEndWith =>
    if case_sensitive then strEndsWith node.absolute_path input
    else strEndsWith (strToLower node.absolute_path) (strToLower input)
  | .AbsolutePathDoesNotEndWith =>
    if case_sensitive then !(strEndsWith node.absolute_path input)
    else !(strEndsWith (strToLower node.absolute_path) (strToLower input))

/-- Embeds `struct NodeFilterApplicable` from app.rs. -/
structure NodeFilterApplicable where
  filter : NodeFilter
  input : String
  case_sensitive : Bool
  deriving DecidableEq

/-- Embeds `NodeFilterApplicable::new`. -/
def NodeFilterApplicable.new (filter : NodeFilter) (input : String)
    (case_sensitive : Bool) : NodeFilterApplicable :=
  { filter := filter, input := input, case_sensitive := case_sensitive }

/-- Embeds `NodeFilterApplicable::apply`. -/
def NodeFilterApplicable.apply (f : NodeFilterApplicable) (node : Node) : Bool :=
  f.filter.apply node f.input f.case_sensitive

/-- Embeds `struct NodeFilterFromInput` from app.rs. -/
structure NodeFilterFromInput where
  filter : NodeFilter
  case_sensitive : Bool
  deriving DecidableEq

/-- Embeds `struct ExplorerConfig` from app.rs. -/
structure ExplorerConfig where
  filters : List NodeFilterApplicable
  deriving DecidableEq

/-- Embeds `ExplorerConfig::apply`: a node passes iff every filter accepts it. -/
def ExplorerConfig.apply (cfg : ExplorerConfig) (node : Node) : Bool :=
  cfg.filters.all (fun f => f.apply node)

/-- Modelled from the spec: the `Key` type lives in `src/input.rs`, which is
not part of the provided sources.  Per the spec, a key has a canonical string
form, category predicates (alphabetic / numeric / special character) and an
optional character form; app.rs only consumes these observations, so the key
is modelled as a record of them. -/
structure Key where
  to_string : String
  is_alphabet : Bool
  is_number : Bool
  is_special_character : Bool
  to_char : Option Char
  deriving DecidableEq

/-- Embeds `struct Command` from app.rs. -/
structure Command where
  command : String
  args : List String
  deriving DecidableEq

/-- Embeds `struct DirectoryBuffer`-carrying `enum InternalMsg` from app.rs. -/
inductive InternalMsg where
  | AddDirectory (parent : String) (dir : DirectoryBuffer)
  | HandleKey (key : Key)
  deriving DecidableEq

/-- Embeds `enum ExternalMsg` from app.rs (the full external command set). -/
inductive ExternalMsg where
  | Explore
  | Refresh
  | ClearScreen
  | FocusNext
  | FocusNextByRelativeIndex (n : Nat)
  | FocusNextByRelativeIndexFromInput
  | FocusPrevious
  | FocusPreviousByRelativeIndex (n : Nat)
  | FocusPreviousByRelativeIndexFromInput
  | FocusFirst
  | FocusLast
  | FocusPath (p : String)
  | FocusPathFromInput
  | FocusByIndex (n : Nat)
  | FocusByIndexFromInput
  | FocusByFileName (name : String)
  | ChangeDirectory (dir : String)
  | Enter
  | Back
  | BufferInput (input : String)
  | BufferInputFromKey
  | SetInputBuffer (input : String)
  | ResetInputBuffer
  | SwitchMode (mode : String)
  | Call (cmd : Command)
  | Select
  | UnSelect
  | ToggleSelection
  | ClearSelection
  | AddNodeFilter (f : NodeFilterApplicable)
  | RemoveNodeFilter (f : NodeFilterApplicable)
  | ToggleNodeFilter (f : NodeFilterApplicable)
  | AddNodeFilterFromInput (f : NodeFilterFromInput)
  | ResetNodeFilters
  | LogInfo (msg : String)
  | LogSuccess (msg : String)
  | LogError (msg : String)
  | PrintResultAndQuit
  | PrintAppStateAndQuit
  | Debug (path : String)
  | Terminate
  deriving DecidableEq

/-- Embeds `enum MsgIn` from app.rs. -/
inductive MsgIn where
  | Internal (msg : InternalMsg)
  | External (msg : ExternalMsg)
  deriving DecidableEq

/-- Embeds `enum MsgOut` from app.rs (the effect queue's alphabet). -/
inductive MsgOut where
  | Explore
  | Refresh
  | ClearScreen
  | PrintResultAndQuit
  | PrintAppStateAndQuit
  | Debug (path : String)
  | Call (cmd : Command)
  deriving DecidableEq

/-- Embeds `struct Task` from app.rs; `created_at : DateTime<Utc>` becomes a
`Nat` drawn from the state's monotone clock. -/
structure Task where
  priority : Nat
  msg : MsgIn
  key : Option Key
  created_at : Nat
  deriving DecidableEq

/-- Embeds `impl Ord for Task`:
`other.priority.cmp(&self.priority).then_with(|| other.created_at.cmp(&self.created_at))`
(the inverted comparator that turns the max-heap into a min-priority queue). -/
def taskCmp (a b : Task) : Ordering :=
  if b.priority < a.priority then .lt
  else if a.priority < b.priority then .gt
  else if b.created_at < a.created_at then .lt
  else if a.created_at < b.created_at then .gt
  else .eq

/-- Models `BinaryHeap::pop` on the task heap: removes and returns a maximal
element w.r.t. `taskCmp` (unique whenever `(priority, created_at)` keys are
pairwise distinct, which enqueueing with a monotone clock guarantees). -/
def popMaxTask : List Task → Option (Task × List Task)
  | [] => none
  | t :: ts =>
    match popMaxTask ts with
    | none => some (t, ts)
    | some (m, rest) =>
      if taskCmp t m = .lt then some (m, t :: rest) else some (t, ts)

/-- Embeds `enum LogLevel` from app.rs. -/
inductive LogLevel where
  | Info
  | Success
  | Error
  deriving DecidableEq

/-- Embeds `struct Log` from app.rs (`created_at` modelled by the clock). -/
structure Log where
  level : LogLevel
  message : String
  created_at : Nat
  deriving DecidableEq

/-- Modelled from the spec: key-binding actions (`config.rs` is not among the
provided sources).  An action carries an ordered list of external messages. -/
structure Action where
  messages : List ExternalMsg
  deriving DecidableEq

/-- Modelled from the spec: the four-tier key-binding table of a mode
(`config.rs` is absent); app.rs reads exactly these fields in `handle_key`. -/
structure KeyBindings where
  on_key : List (String × Action)
  on_alphabet : Option Action
  on_number : Option Action
  on_special_character : Option Action
  default : Option Action
  deriving DecidableEq

/-- Modelled from the spec: a mode is a name plus a key-binding table. -/
structure Mode where
  name : String
  key_bindings : KeyBindings
  deriving DecidableEq

/-- Modelled from the spec: the `general.show_hidden` configuration switch
read by app.rs. -/
structure GeneralConfig where
  show_hidden : Bool
  deriving DecidableEq

/-- Modelled from the spec: the slice of `config::Config` that app.rs reads
(version string, general options, mode table). -/
structure Config where
  version : String
  general : GeneralConfig
  modes : List (String × Mode)
  deriving DecidableEq

/-- Embeds `struct Pipe` from app.rs (the four IPC file paths). -/
structure Pipe where
  msg_in : String
  focus_out : String
  selection_out : String
  mode_out : String
  deriving DecidableEq

/-- Abstraction of the filesystem queries app.rs performs:
`PathBuf::is_dir`, `Path::parent` and `Path::file_name`. -/
structure Env where
  is_dir : String → Bool
  parent_of : String → Option String
  file_name_of : String → Option String

/-- Association-list lookup, modelling `HashMap::get`. -/
def lookupStr {α : Type} : List (String × α) → String → Option α
  | [], _ => none
  | (k, v) :: rest, key => if k = key then some v else lookupStr rest key

/-- Association-list insert-or-replace, modelling `HashMap::insert`. -/
def insertStr {α : Type} : List (String × α) → String → α → List (String × α)
  | [], k, v => [(k, v)]
  | (k', v') :: rest, k, v =>
    if k' = k then (k, v) :: rest else (k', v') :: insertStr rest k v

/-- In-place update of the first binding of a key, modelling `HashMap::get_mut`
followed by mutation of the found entry. -/
def modifyStr {α : Type} : List (String × α) → String → (α → α) → List (String × α)
  | [], _, _ => []
  | (k', v) :: rest, k, f =>
    if k' = k then (k', f v) :: rest else (k', v) :: modifyStr rest k f

/-- Embeds `struct App` from app.rs.  `tasks : BinaryHeap<Task>` becomes a
list drained through `popMaxTask`; `msg_out : VecDeque<MsgOut>` becomes a list
pushed at the back; `clock` models the monotone `Utc::now()` source. -/
structure App where
  config : Config
  pwd : String
  directory_buffers : List (String × DirectoryBuffer)
  tasks : List Task
  selection : List Node
  msg_out : List MsgOut
  mode : Mode
  input_buffer : Option String
  pid : Nat
  session_path : String
  pipe : Pipe
  explorer_config : ExplorerConfig
  logs : List Log
  clock : Nat
  deriving DecidableEq

namespace App

/-- Embeds `App::directory_buffer`: `self.directory_buffers.get(&self.pwd)`. -/
def directory_buffer (a : App) : Option DirectoryBuffer :=
  lookupStr a.directory_buffers a.pwd

/-- Embeds `App::focused_node`. -/
def focused_node (a : App) : Option Node :=
  a.directory_buffer.bind DirectoryBuffer.focused_node

/-- Embeds `Task::new` + `App::enqueue`: the task is stamped with the current
clock (standing for `Utc::now()`) and pushed onto the heap. -/
def enqueue (a : App) (priority : Nat) (msg : MsgIn) (key : Option Key) : App :=
  { a with
    tasks := a.tasks ++ [⟨priority, msg, key, a.clock⟩],
    clock := a.clock + 1 }

/-- Embeds `App::explore`. -/
def explore (a : App) : App :=
  { a with msg_out := a.msg_out ++ [MsgOut.Explore] }

/-- Embeds `App::refresh`. -/
def refresh (a : App) : App :=
  { a with msg_out := a.msg_out ++ [MsgOut.Refresh] }

/-- Embeds `App::clear_screen`. -/
def clear_screen (a : App) : App :=
  { a with msg_out := a.msg_out ++ [MsgOut.ClearScreen] }

/-- Embeds `App::focus_first`. -/
def focus_first (a : App) : App :=
  match lookupStr a.directory_buffers a.pwd with
  | none => a
  | some _ =>
    { a with
      directory_buffers :=
        modifyStr a.directory_buffers a.pwd (fun d => { d with focus := 0 }),
      msg_out := a.msg_out ++ [MsgOut.Refresh] }

/-- Embeds `App::focus_last`: `dir.focus = dir.total.max(1) - 1`. -/
def focus_last (a : App) : App :=
  match lookupStr a.directory_buffers a.pwd with
  | none => a
  | some _ =>
    { a with
      directory_buffers :=
        modifyStr a.directory_buffers a.pwd
          (fun d => { d with focus := d.total.max 1 - 1 }),
      msg_out := a.msg_out ++ [MsgOut.Refresh] }

/-- Embeds `App::focus_previous`: `dir.focus = dir.focus.max(1) - 1`. -/
def focus_previous (a : App) : App :=
  match lookupStr a.directory_buffers a.pwd with
  | none => a
  | some _ =>
    { a with
      directory_buffers :=
        modifyStr a.directory_buffers a.pwd
          (fun d => { d with focus := d.focus.max 1 - 1 }),
      msg_out := a.msg_out ++ [MsgOut.Refresh] }

/-- Embeds `App::focus_previous_by_relative_index`:
`dir.focus = dir.focus.max(index) - index`. -/
def focus_previous_by_relative_index (a : App) (index : Nat) : App :=
  match lookupStr a.directory_buffers a.pwd with
  | none => a
  | some _ =>
    { a with
      directory_buffers :=
        modifyStr a.directory_buffers a.pwd
          (fun d => { d with focus := d.focus.max index - index }),
      msg_out := a.msg_out ++ [MsgOut.Refresh] }

/-- Embeds `App::focus_previous_by_relative_index_from_input` (Rust's
`parse::<usize>().ok()` modelled by `strToNat`). -/
def focus_previous_by_relative_index_from_input (a : App) : App :=
  match a.input_buffer.bind strToNat with
  | some index => a.focus_previous_by_relative_index index
  | none => a

/-- Embeds `App::focus_next`:
`dir.focus = (dir.focus + 1).min(dir.total.max(1) - 1)`. -/
def focus_next (a : App) : App :=
  match lookupStr a.directory_buffers a.pwd with
  | none => a
  | some _ =>
    { a with
      directory_buffers :=
        modifyStr a.directory_buffers a.pwd
          (fun d => { d with focus := (d.focus + 1).min (d.total.max 1 - 1) }),
      msg_out := a.msg_out ++ [MsgOut.Refresh] }

/-- Embeds `App::focus_next_by_relative_index`. -/
def focus_next_by_relative_index (a : App) (index : Nat) : App :=
  match lookupStr a.directory_buffers a.pwd with
  | none => a
  | some _ =>
    { a with
      directory_buffers :=
        modifyStr a.directory_buffers a.pwd
          (fun d => { d with focus := (d.focus + index).min (d.total.max 1 - 1) }),
      msg_out := a.msg_out ++ [MsgOut.Refresh] }

/-- Embeds `App::focus_next_by_relative_index_from_input`. -/
def focus_next_by_relative_index_from_input (a : App) : App :=
  match a.input_buffer.bind strToNat with
  | some index => a.focus_next_by_relative_index index
  | none => a

/-- Embeds `App::change_directory`: guarded by `PathBuf::from(dir).is_dir()`. -/
def change_directory (env : Env) (a : App) (dir : String) : App :=
  if env.is_dir dir then
    { a with pwd := dir, msg_out := a.msg_out ++ [MsgOut.Refresh] }
  else a

/-- Embeds `App::enter`. -/
def enter (env : Env) (a : App) : App :=
  match a.focused_node with
  | some n => a.change_directory env n.absolute_path
  | none => a

/-- Embeds `App::back`. -/
def back (env : Env) (a : App) : App :=
  match env.parent_of a.pwd with
  | some p => a.change_directory env p
  | none => a

/-- Embeds `App::buffer_input`. -/
def buffer_input (a : App) (input : String) : App :=
  match a.input_buffer with
  | some buf =>
    { a with
      input_buffer := some (buf ++ input),
      msg_out := a.msg_out ++ [MsgOut.Refresh] }
  | none =>
    { a with
      input_buffer := some input,
      msg_out := a.msg_out ++ [MsgOut.Refresh] }

/-- Embeds `App::buffer_input_from_key`. -/
def buffer_input_from_key (a : App) (key : Option Key) : App :=
  match key.bind Key.to_char with
  | some c => a.buffer_input (String.singleton c)
  | none => a

/-- Embeds `App::set_input_buffer`. -/
def set_input_buffer (a : App) (s : String) : App :=
  { a with
    input_buffer := some s,
    msg_out := a.msg_out ++ [MsgOut.Refresh] }

/-- Embeds `App::reset_input_buffer`. -/
def reset_input_buffer (a : App) : App :=
  { a with
    input_buffer := none,
    msg_out := a.msg_out ++ [MsgOut.Refresh] }

/-- Embeds `App::focus_by_index`: `dir.focus = index.min(dir.total.max(1) - 1)`. -/
def focus_by_index (a : App) (index : Nat) : App :=
  match lookupStr a.directory_buffers a.pwd with
  | none => a
  | some _ =>
    { a with
      directory_buffers :=
        modifyStr a.directory_buffers a.pwd
          (fun d => { d with focus := index.min (d.total.max 1 - 1) }),
      msg_out := a.msg_out ++ [MsgOut.Refresh] }

/-- Embeds `App::focus_by_index_from_input`. -/
def focus_by_index_from_input (a : App) : App :=
  match a.input_buffer.bind strToNat with
  | some index => a.focus_by_index index
  | none => a

/-- Embeds `App::focus_by_file_name`: linear search for an exact
`relative_path` match; no mutation and no effect when the name is absent. -/
def focus_by_file_name (a : App) (name : String) : App :=
  match lookupStr a.directory_buffers a.pwd with
  | none => a
  | some d =>
    match d.nodes.findIdx? (fun n => n.relative_path == name) with
    | some i =>
      { a with
        directory_buffers :=
          modifyStr a.directory_buffers a.pwd (fun d' => { d' with focus := i }),
        msg_out := a.msg_out ++ [MsgOut.Refresh] }
    | none => a

/-- Embeds `App::focus_path`: split into parent and file name, change
directory, then focus by file name; no-op when either component is missing. -/
def focus_path (env : Env) (a : App) (path : String) : App :=
  match env.parent_of path with
  | some parent =>
    match env.file_name_of path with
    | some filename => (a.change_directory env parent).focus_by_file_name filename
    | none => a
  | none => a

/-- Embeds `App::focus_path_from_input`. -/
def focus_path_from_input (env : Env) (a : App) : App :=
  match a.input_buffer with
  | some p => a.focus_path env p
  | none => a

/-- Embeds `App::switch_mode`: no-op unless the name is in the mode table. -/
def switch_mode (a : App) (mode : String) : App :=
  match lookupStr a.config.modes mode with
  | some m =>
    { a with
      input_buffer := none,
      mode := m,
      msg_out := a.msg_out ++ [MsgOut.Refresh] }
  | none => a

/-- Embeds `App::call`. -/
def call (a : App) (command : Command) : App :=
  { a with msg_out := a.msg_out ++ [MsgOut.Call command] }

/-- Embeds `App::add_directory` (`HashMap::insert` replaces wholesale). -/
def add_directory (a : App) (parent : String) (dir : DirectoryBuffer) : App :=
  { a with
    directory_buffers := insertStr a.directory_buffers parent dir,
    msg_out := a.msg_out ++ [MsgOut.Refresh] }

/-- Embeds `App::select`: appends the focused node (duplicates permitted). -/
def select (a : App) : App :=
  match a.focused_node with
  | some n =>
    { a with
      selection := a.selection ++ [n],
      msg_out := a.msg_out ++ [MsgOut.Refresh] }
  | none => a

/-- Embeds `App::un_select`: removes every selection entry structurally equal
to the focused node. -/
def un_select (a : App) : App :=
  match a.focused_node with
  | some n =>
    { a with
      selection := a.selection.filter (fun s => s != n),
      msg_out := a.msg_out ++ [MsgOut.Refresh] }
  | none => a

/-- Embeds `App::toggle_selection`. -/
def toggle_selection (a : App) : App :=
  match a.focused_node with
  | some n => if a.selection.contains n then a.un_select else a.select
  | none => a

/-- Embeds `App::clear_selection`. -/
def clear_selection (a : App) : App :=
  { a with
    selection := [],
    msg_out := a.msg_out ++ [MsgOut.Refresh] }

/-- Embeds `App::add_node_filter`. -/
def add_node_filter (a : App) (filter : NodeFilterApplicable) : App :=
  { a with
    explorer_config := ⟨a.explorer_config.filters ++ [filter]⟩,
    msg_out := a.msg_out ++ [MsgOut.Refresh] }

/-- Embeds `App::add_node_filter_from_input`. -/
def add_node_filter_from_input (a : App) (filter : NodeFilterFromInput) : App :=
  match a.input_buffer with
  | some input =>
    { a with
      explorer_config :=
        ⟨a.explorer_config.filters ++
          [NodeFilterApplicable.new filter.filter input filter.case_sensitive]⟩,
      msg_out := a.msg_out ++ [MsgOut.Refresh] }
  | none => a

/-- Embeds `App::remove_node_filter`. -/
def remove_node_filter (a : App) (filter : NodeFilterApplicable) : App :=
  { a with
    explorer_config := ⟨a.explorer_config.filters.filter (fun f => f != filter)⟩,
    msg_out := a.msg_out ++ [MsgOut.Refresh] }

/-- Embeds `App::toggle_node_filter`. -/
def toggle_node_filter (a : App) (filter : NodeFilterApplicable) : App :=
  if a.explorer_config.filters.contains filter then a.remove_node_filter filter
  else a.add_node_filter filter

/-- Embeds `App::reset_node_filters`: clear, then reinstate the hidden-file
filter unless `show_hidden` is configured. -/
def reset_node_filters (a : App) : App :=
  let base : List NodeFilterApplicable :=
    if a.config.general.show_hidden then []
    else [NodeFilterApplicable.new NodeFilter.RelativePathDoesNotStartWith "." false]
  { a with
    explorer_config := ⟨base⟩,
    msg_out := a.msg_out ++ [MsgOut.Refresh] }

/-- Embeds `App::log_info` (`Log::new` stamps the clock). -/
def log_info (a : App) (message : String) : App :=
  { a with
    logs := a.logs ++ [⟨LogLevel.Info, message, a.clock⟩],
    clock := a.clock + 1 }

/-- Embeds `App::log_success`. -/
def log_success (a : App) (message : String) : App :=
  { a with
    logs := a.logs ++ [⟨LogLevel.Success, message, a.clock⟩],
    clock := a.clock + 1 }

/-- Embeds `App::log_error`. -/
def log_error (a : App) (message : String) : App :=
  { a with
    logs := a.logs ++ [⟨LogLevel.Error, message, a.clock⟩],
    clock := a.clock + 1 }

/-- Embeds `App::print_result_and_quit`. -/
def print_result_and_quit (a : App) : App :=
  { a with msg_out := a.msg_out ++ [MsgOut.PrintResultAndQuit] }

/-- Embeds `App::print_app_state_and_quit`. -/
def print_app_state_and_quit (a : App) : App :=
  { a with msg_out := a.msg_out ++ [MsgOut.PrintAppStateAndQuit] }

/-- Embeds `App::debug`. -/
def debug (a : App) (path : String) : App :=
  { a with msg_out := a.msg_out ++ [MsgOut.Debug path] }

/-- Embeds `App::result`: the selection when non-empty, else the focused node
as a singleton, else nothing. -/
def result (a : App) : List Node :=
  if a.selection.isEmpty then
    match a.focused_node with
    | some n => [n]
    | none => []
  else a.selection

/-- Embeds `App::result_str`: newline-joined absolute paths of `result`. -/
def result_str (a : App) : String :=
  String.intercalate "\n" (a.result.map (fun n => n.absolute_path))

end App

/-- Embeds the `msgs` resolution inside `App::handle_key`: exact binding,
else the category fallback (alphabet / number / special character), else the
mode default, else nothing. -/
def resolveMsgs (kb : KeyBindings) (key : Key) : List ExternalMsg :=
  match lookupStr kb.on_key key.to_string with
  | some a => a.messages
  | none =>
    match
      (if key.is_alphabet then kb.on_alphabet.map Action.messages
       else if key.is_number then kb.on_number.map Action.messages
       else if key.is_special_character then kb.on_special_character.map Action.messages
       else none) with
    | some msgs => msgs
    | none => (kb.default.map Action.messages).getD []

/-- Embeds `App::handle_key`: each resolved message is enqueued as a task of
priority 0 tagged with the originating key, in list order. -/
def App.handle_key (a : App) (key : Key) : App :=
  (resolveMsgs a.mode.key_bindings key).foldl
    (fun acc m => acc.enqueue 0 (MsgIn.External m) (some key)) a

/-- Embeds `App::handle_internal`. -/
def App.handle_internal (a : App) (msg : InternalMsg) : App :=
  match msg with
  | .AddDirectory parent dir => a.add_directory parent dir
  | .HandleKey key => a.handle_key key

/-- Embeds `App::handle_external`: the single dispatch over the external
command set.  Only `Terminate` errs (`bail!("terminated")`); every other arm
wraps a total handler. -/
def App.handle_external (env : Env) (a : App) (msg : ExternalMsg)
    (key : Option Key) : Except String App :=
  match msg with
  | .Explore => .ok a.explore
  | .Refresh => .ok a.refresh
  | .ClearScreen => .ok a.clear_screen
  | .FocusFirst => .ok a.focus_first
  | .FocusLast => .ok a.focus_last
  | .FocusPrevious => .ok a.focus_previous
  | .FocusPreviousByRelativeIndex i => .ok (a.focus_previous_by_relative_index i)
  | .FocusPreviousByRelativeIndexFromInput =>
    .ok a.focus_previous_by_relative_index_from_input
  | .FocusNext => .ok a.focus_next
  | .FocusNextByRelativeIndex i => .ok (a.focus_next_by_relative_index i)
  | .FocusNextByRelativeIndexFromInput =>
    .ok a.focus_next_by_relative_index_from_input
  | .FocusPath p => .ok (a.focus_path env p)
  | .FocusPathFromInput => .ok (a.focus_path_from_input env)
  | .FocusByIndex i => .ok (a.focus_by_index i)
  | .FocusByIndexFromInput => .ok a.focus_by_index_from_input
  | .FocusByFileName n => .ok (a.focus_by_file_name n)
  | .ChangeDirectory dir => .ok (a.change_directory env dir)
  | .Enter => .ok (a.enter env)
  | .Back => .ok (a.back env)
  | .BufferInput input => .ok (a.buffer_input input)
  | .BufferInputFromKey => .ok (a.buffer_input_from_key key)
  | .SetInputBuffer input => .ok (a.set_input_buffer input)
  | .ResetInputBuffer => .ok a.reset_input_buffer
  | .SwitchMode mode => .ok (a.switch_mode mode)
  | .Call cmd => .ok (a.call cmd)
  | .Select => .ok a.select
  | .UnSelect => .ok a.un_select
  | .ToggleSelection => .ok a.toggle_selection
  | .ClearSelection => .ok a.clear_selection
  | .AddNodeFilter f => .ok (a.add_node_filter f)
  | .AddNodeFilterFromInput f => .ok (a.add_node_filter_from_input f)
  | .RemoveNodeFilter f => .ok (a.remove_node_filter f)
  | .ToggleNodeFilter f => .ok (a.toggle_node_filter f)
  | .ResetNodeFilters => .ok a.reset_node_filters
  | .LogInfo l => .ok (a.log_info l)
  | .LogSuccess l => .ok (a.log_success l)
  | .LogError l => .ok (a.log_error l)
  | .PrintResultAndQuit => .ok a.print_result_and_quit
  | .PrintAppStateAndQuit => .ok a.print_app_state_and_quit
  | .Debug path => .ok (a.debug path)
  | .Terminate => .error "terminated"

/-- Embeds `App::possibly_mutate`: pop one task (no-op when the heap is
empty) and route it by message kind. -/
def App.possibly_mutate (env : Env) (a : App) : Except String App :=
  match popMaxTask a.tasks with
  | none => .ok a
  | some (t, rest) =>
    match t.msg with
    | .Internal m => .ok (App.handle_internal { a with tasks := rest } m)
    | .External m => App.handle_external env { a with tasks := rest } m t.key

/-- Enqueues a whole list of `(priority, message, key)` requests in order. -/
def enqueueAll (a : App) (specs : List (Nat × MsgIn × Option Key)) : App :=
  specs.foldl (fun acc s => acc.enqueue s.1 s.2.1 s.2.2) a

/-- The focus-moving external commands named by the spec's focus invariant. -/
inductive FocusCmd where
  | next
  | previous
  | first
  | last
  | byIndex (n : Nat)
  | nextRel (n : Nat)
  | prevRel (n : Nat)
  deriving DecidableEq

/-- Routes a focus command to the corresponding handler (exactly the arm
`handle_external` dispatches it to; none of these consult the environment). -/
def applyFocusCmd (a : App) : FocusCmd → App
  | .next => a.focus_next
  | .previous => a.focus_previous
  | .first => a.focus_first
  | .last => a.focus_last
  | .byIndex n => a.focus_by_index n
  | .nextRel n => a.focus_next_by_relative_index n
  | .prevRel n => a.focus_previous_by_relative_index n

/-- Applies a sequence of focus commands left to right. -/
def applyFocusCmds (a : App) (cs : List FocusCmd) : App :=
  cs.foldl applyFocusCmd a

/-- Builds the tasks `handle_key` enqueues for a message list: priority 0,
tagged with the key, consecutive clock stamps starting at `c`. -/
def mkKeyTasks (c : Nat) (key : Key) : List ExternalMsg → List Task
  | [] => []
  | m :: ms => ⟨0, MsgIn.External m, some key, c⟩ :: mkKeyTasks (c + 1) key ms

/-! ### Concrete fixtures used by witnesses -/

/-- An environment on which no path is a directory and paths do not split. -/
def emptyEnv : Env := ⟨fun _ => false, fun _ => none, fun _ => none⟩

/-- A minimal configuration: current version, hidden files not shown, no modes. -/
def baseConfig : Config := ⟨"v0.2.19", ⟨false⟩, []⟩

/-- A mode with an empty key-binding table. -/
def baseMode : Mode := ⟨"default", ⟨[], none, none, none, none⟩⟩

/-- Placeholder pipe paths. -/
def basePipe : Pipe := ⟨"", "", "", ""⟩

/-- A fresh application state with no buffers, tasks, selection or logs. -/
def baseApp : App :=
  ⟨baseConfig, "/tmp", [], [], [], [], baseMode, none, 0, "", basePipe, ⟨[]⟩, [], 0⟩

/-- Concrete entry `/tmp/a.txt`. -/
def testNodeA : Node :=
  ⟨"/tmp", "a.txt", "/tmp/a.txt", "txt", false, false, true, false, "text/plain"⟩

/-- Concrete entry `/tmp/b.txt`. -/
def testNodeB : Node :=
  ⟨"/tmp", "b.txt", "/tmp/b.txt", "txt", false, false, true, false, "text/plain"⟩

/-- Concrete entry `/tmp/c.txt`. -/
def testNodeC : Node :=
  ⟨"/tmp", "c.txt", "/tmp/c.txt", "txt", false, false, true, false, "text/plain"⟩

/-- A one-entry listing for `/tmp`. -/
def bufA : DirectoryBuffer := DirectoryBuffer.new "/tmp" [testNodeA] 0

/-- State whose current directory holds exactly `/tmp/a.txt`, focused. -/
def appFocusA : App := { baseApp with directory_buffers := [("/tmp", bufA)] }

/-- State with a two-entry selection and no buffers. -/
def appSelBC : App := { baseApp with selection := [testNodeB, testNodeC] }

/-- The default hidden-file filter. -/
def dotFilter : NodeFilterApplicable :=
  ⟨NodeFilter.RelativePathDoesNotStartWith, ".", false⟩

/-- A suffix filter used to extend filter sets in witnesses. -/
def mdFilter : NodeFilterApplicable :=
  ⟨NodeFilter.RelativePathDoesEndWith, ".md", false⟩

/-- A visible markdown entry. -/
def readmeNode : Node :=
  ⟨"/", "README.md", "/README.md", "md", false, false, true, false, ""⟩

/-- A three-entry listing for `/tmp`, focus at the first entry. -/
def bufABC : DirectoryBuffer :=
  DirectoryBuffer.new "/tmp" [testNodeA, testNodeB, testNodeC] 0

/-- State for the end-to-end result scenario: three entries, empty
selection. -/
def appABC : App := { baseApp with directory_buffers := [("/tmp", bufABC)] }

/-- The scenario state after selecting all of a, b, c in order. -/
def appABCsel : App :=
  ((((appABC.select).focus_by_index 1).select).focus_by_index 2).select

/-- An action for the C6 witness. -/
def actW : Action := ⟨[ExternalMsg.PrintResultAndQuit]⟩

/-- Key bindings with one exact binding on "q". -/
def kbW : KeyBindings := ⟨[("q", actW)], none, none, none, none⟩

/-- A mode carrying `kbW`. -/
def modeW : Mode := ⟨"withq", kbW⟩

/-- The key "q". -/
def keyW : Key := ⟨"q", true, false, false, some 'q'⟩

/-- State whose active mode is `modeW`. -/
def appKeyW : App := { baseApp with mode := modeW }

/-- The heap-order dominance relation the scheduler realizes: `t` is served
no later than `u` when `t`'s priority is smaller, or equal with an
earlier-or-equal creation stamp. -/
def taskWins (t u : Task) : Prop :=
  t.priority ≤ u.priority ∧ (t.priority = u.priority → t.created_at ≤ u.created_at)

/-- The spec's scheduler scenario: priorities [2, 1, 1, 3] in enqueue order. -/
def specsW : List (Nat × MsgIn × Option Key) :=
  [(2, MsgIn.External .Refresh, none), (1, MsgIn.External .Explore, none),
   (1, MsgIn.External .ClearScreen, none), (3, MsgIn.External .Refresh, none)]

/-- The task list obtained by enqueueing `specsW` on a fresh state. -/
def tasksW : List Task := (enqueueAll baseApp specsW).tasks

/-- The first-enqueued priority-1 task, which must pop first. -/
def tW : Task := ⟨1, MsgIn.External .Explore, none, 1⟩

/-- The pending tasks after the first pop. -/
def restW : List Task :=
  [⟨2, MsgIn.External .Refresh, none, 0⟩, ⟨1, MsgIn.External .ClearScreen, none, 2⟩,
   ⟨3, MsgIn.External .Refresh, none, 3⟩]

/-! ### Claims -/

/-- Claim C4: filter-set evaluation is conjunctive and hence monotone: an
entry is visible under a filter set iff it satisfies every filter in the set,
and extending the set with one more filter can only shrink visibility. -/
theorem filter_conjunction_monotone (fs : List NodeFilterApplicable)
    (f : NodeFilterApplicable) (node : Node) :
    (ExplorerConfig.apply ⟨fs⟩ node = true ↔ ∀ g ∈ fs, g.apply node = true) ∧
    (ExplorerConfig.apply ⟨fs ++ [f]⟩ node = true →
      ExplorerConfig.apply ⟨fs⟩ node = true) := by
  constructor
  · simp [ExplorerConfig.apply, List.all_eq_true]
  · intro h
    simp only [ExplorerConfig.apply, List.all_eq_true] at h ⊢
    intro g hg
    exact h g (List.mem_append_left _ hg)

/-- Witness for C4 at a concrete filter set, filter and entry. -/
theorem filter_conjunction_monotone_witness :
    ExplorerConfig.apply ⟨[dotFilter]⟩ readmeNode = true :=
  (filter_conjunction_monotone [dotFilter] mdFilter readmeNode).2 (by decide)

/-- Claim C5: `result` returns the selection when non-empty, otherwise a
singleton of the focused entry when one exists, otherwise the empty list, and
`result_str` is the newline join of the absolute paths of `result`. -/
theorem result_contract (a : App) :
    (a.selection = [] →
      a.result = (a.focused_node.map (fun n => [n])).getD []) ∧
    (a.selection ≠ [] → a.result = a.selection) ∧
    a.result_str =
      String.intercalate "\n" (a.result.map (fun n => n.absolute_path)) := by
  refine ⟨?_, ?_, rfl⟩
  · intro h
    simp only [App.result, h, List.isEmpty_nil, if_true]
    cases a.focused_node <;> simp
  · intro h
    simp only [App.result]
    rw [if_neg]
    simp [List.isEmpty_iff, h]

/-- Witness for C5: a state with an empty selection and a focused entry, and
a state with a non-empty selection. -/
theorem result_contract_witness :
    appFocusA.result = [testNodeA] ∧ appSelBC.result = [testNodeB, testNodeC] :=
  ⟨((result_contract appFocusA).1 rfl).trans rfl,
   ((result_contract appSelBC).2.1 (by decide)).trans rfl⟩

/-- Claim C10: each log command appends exactly one log entry of the matching
severity with the given message, appends no effect, and leaves pwd, directory
buffers, selection, mode, input buffer, filters and the task queue unchanged. -/
theorem log_commands_frame (a : App) (msg : String) :
    ((∃ t, (a.log_info msg).logs = a.logs ++ [⟨LogLevel.Info, msg, t⟩]) ∧
      (a.log_info msg).msg_out = a.msg_out ∧
      (a.log_info msg).pwd = a.pwd ∧
      (a.log_info msg).directory_buffers = a.directory_buffers ∧
      (a.log_info msg).selection = a.selection ∧
      (a.log_info msg).mode = a.mode ∧
      (a.log_info msg).input_buffer = a.input_buffer ∧
      (a.log_info msg).explorer_config = a.explorer_config ∧
      (a.log_info msg).tasks = a.tasks) ∧
    ((∃ t, (a.log_success msg).logs = a.logs ++ [⟨LogLevel.Success, msg, t⟩]) ∧
      (a.log_success msg).msg_out = a.msg_out ∧
      (a.log_success msg).pwd = a.pwd ∧
      (a.log_success msg).directory_buffers = a.directory_buffers ∧
      (a.log_success msg).selection = a.selection ∧
      (a.log_success msg).mode = a.mode ∧
      (a.log_success msg).input_buffer = a.input_buffer ∧
      (a.log_success msg).explorer_config = a.explorer_config ∧
      (a.log_success msg).tasks = a.tasks) ∧
    ((∃ t, (a.log_error msg).logs = a.logs ++ [⟨LogLevel.Error, msg, t⟩]) ∧
      (a.log_error msg).msg_out = a.msg_out ∧
      (a.log_error msg).pwd = a.pwd ∧
      (a.log_error msg).directory_buffers = a.directory_buffers ∧
      (a.log_error msg).selection = a.selection ∧
      (a.log_error msg).mode = a.mode ∧
      (a.log_error msg).input_buffer = a.input_buffer ∧
      (a.log_error msg).explorer_config = a.explorer_config ∧
      (a.log_error msg).tasks = a.tasks) :=
  ⟨⟨⟨a.clock, rfl⟩, rfl, rfl, rfl, rfl, rfl, rfl, rfl, rfl⟩,
   ⟨⟨a.clock, rfl⟩, rfl, rfl, rfl, rfl, rfl, rfl, rfl, rfl⟩,
   ⟨⟨a.clock, rfl⟩, rfl, rfl, rfl, rfl, rfl, rfl, rfl, rfl⟩⟩

/-- When the directory-buffer map has no entry for the pwd, no node is
focused. -/
theorem focused_node_eq_none_of_no_buffer (a : App)
    (h : lookupStr a.directory_buffers a.pwd = none) :
    a.focused_node = none := by
  simp [App.focused_node, App.directory_buffer, h]

/-- Claim C9: when the directory-buffer map has no entry for the current
working directory, every focus-moving command and every selection command
that requires a focused entry returns the state completely unchanged (so in
particular appends no effect). -/
theorem no_buffer_noop (env : Env) (a : App) (key : Option Key)
    (h : lookupStr a.directory_buffers a.pwd = none) :
    App.handle_external env a .FocusNext key = .ok a ∧
    App.handle_external env a .FocusPrevious key = .ok a ∧
    App.handle_external env a .FocusFirst key = .ok a ∧
    App.handle_external env a .FocusLast key = .ok a ∧
    (∀ n, App.handle_external env a (.FocusByIndex n) key = .ok a) ∧
    (∀ n, App.handle_external env a (.FocusNextByRelativeIndex n) key = .ok a) ∧
    (∀ n, App.handle_external env a (.FocusPreviousByRelativeIndex n) key = .ok a) ∧
    (∀ s, App.handle_external env a (.FocusByFileName s) key = .ok a) ∧
    App.handle_external env a .Select key = .ok a ∧
    App.handle_external env a .UnSelect key = .ok a ∧
    App.handle_external env a .ToggleSelection key = .ok a := by
  have hf : a.focused_node = none := focused_node_eq_none_of_no_buffer a h
  refine ⟨?_, ?_, ?_, ?_, ?_, ?_, ?_, ?_, ?_, ?_, ?_⟩
  · simp [App.handle_external, App.focus_next, h]
  · simp [App.handle_external, App.focus_previous, h]
  · simp [App.handle_external, App.focus_first, h]
  · simp [App.handle_external, App.focus_last, h]
  · intro n; simp [App.handle_external, App.focus_by_index, h]
  · intro n; simp [App.handle_external, App.focus_next_by_relative_index, h]
  · intro n; simp [App.handle_external, App.focus_previous_by_relative_index, h]
  · intro s; simp [App.handle_external, App.focus_by_file_name, h]
  · simp [App.handle_external, App.select, hf]
  · simp [App.handle_external, App.un_select, hf]
  · simp [App.handle_external, App.toggle_selection, hf]

/-- Witness for C9 at a concrete state with no buffer for its pwd. -/
theorem no_buffer_noop_witness :
    App.handle_external emptyEnv baseApp .FocusNext none = .ok baseApp ∧
    App.handle_external emptyEnv baseApp .Select none = .ok baseApp := by
  have h := no_buffer_noop emptyEnv baseApp none rfl
  exact ⟨h.1, h.2.2.2.2.2.2.2.2.1⟩

/-- Claim C2: for every state and every external message other than
`Terminate`, `handle_external` returns a successful result; `Terminate` is
the only failing command; invalid targets (non-directory path, unknown mode,
unknown file name, unparsable or absent numeric input, no focused node)
resolve to exact no-ops. -/
theorem handle_external_total (env : Env) (a : App) (msg : ExternalMsg)
    (key : Option Key) :
    ((App.handle_external env a msg key).isOk = true ↔ msg ≠ .Terminate) ∧
    (∀ d, env.is_dir d = false →
      App.handle_external env a (.ChangeDirectory d) key = .ok a) ∧
    (∀ m, lookupStr a.config.modes m = none →
      App.handle_external env a (.SwitchMode m) key = .ok a) ∧
    (∀ name d, lookupStr a.directory_buffers a.pwd = some d →
      d.nodes.findIdx? (fun n => n.relative_path == name) = none →
      App.handle_external env a (.FocusByFileName name) key = .ok a) ∧
    (a.input_buffer.bind strToNat = none →
      App.handle_external env a .FocusByIndexFromInput key = .ok a ∧
      App.handle_external env a .FocusNextByRelativeIndexFromInput key = .ok a ∧
      App.handle_external env a .FocusPreviousByRelativeIndexFromInput key = .ok a) ∧
    (a.input_buffer = none →
      App.handle_external env a .FocusPathFromInput key = .ok a) ∧
    (a.focused_node = none →
      App.handle_external env a .Select key = .ok a ∧
      App.handle_external env a .Enter key = .ok a) := by
  refine ⟨?_, ?_, ?_, ?_, ?_, ?_, ?_⟩
  · cases msg <;> simp [App.handle_external, Except.isOk, Except.toBool]
  · intro d hd; simp [App.handle_external, App.change_directory, hd]
  · intro m hm; simp [App.handle_external, App.switch_mode, hm]
  · intro name d hd hidx
    simp [App.handle_external, App.focus_by_file_name, hd, hidx]
  · intro hin
    exact ⟨by simp [App.handle_external, App.focus_by_index_from_input, hin],
      by simp [App.handle_external, App.focus_next_by_relative_index_from_input, hin],
      by simp [App.handle_external,
        App.focus_previous_by_relative_index_from_input, hin]⟩
  · intro hin; simp [App.handle_external, App.focus_path_from_input, hin]
  · intro hf
    exact ⟨by simp [App.handle_external, App.select, hf],
      by simp [App.handle_external, App.enter, hf]⟩

/-- Witness for C2: totality and no-op behaviour at concrete invalid
targets. -/
theorem handle_external_total_witness :
    App.handle_external emptyEnv baseApp (.ChangeDirectory "/nope") none
      = .ok baseApp ∧
    App.handle_external emptyEnv baseApp (.SwitchMode "bogus") none
      = .ok baseApp ∧
    (App.handle_external emptyEnv baseApp .Refresh none).isOk = true := by
  refine ⟨?_, ?_, ?_⟩
  · exact (handle_external_total emptyEnv baseApp .Refresh none).2.1 "/nope" rfl
  · exact (handle_external_total emptyEnv baseApp .Refresh none).2.2.1 "bogus" rfl
  · exact (handle_external_total emptyEnv baseApp .Refresh none).1.mpr
      (by decide)

/-- Selecting keeps the focused node unchanged (only selection and effects
move). -/
theorem focused_node_select (a : App) : a.select.focused_node = a.focused_node := by
  cases hf : a.focused_node with
  | none => simp only [App.select, hf]
  | some n => simp only [App.select, hf]; exact hf

/-- Unselecting keeps the focused node unchanged. -/
theorem focused_node_un_select (a : App) :
    a.un_select.focused_node = a.focused_node := by
  cases hf : a.focused_node with
  | none => simp only [App.un_select, hf]
  | some n => simp only [App.un_select, hf]; exact hf

/-- Claim C7: with the focused entry unchanged (which selection commands
guarantee, as they never touch the buffers), applying `toggle_selection`
twice restores the focused entry's selection membership. -/
theorem toggle_twice_membership (a : App) (n : Node)
    (h : a.focused_node = some n) :
    (n ∈ a.toggle_selection.toggle_selection.selection ↔ n ∈ a.selection) := by
  by_cases hc : n ∈ a.selection
  · have h1 : a.toggle_selection = a.un_select := by
      simp [App.toggle_selection, h, hc]
    have hf1 : a.un_select.focused_node = some n :=
      (focused_node_un_select a).trans h
    have hsel1 : a.un_select.selection = a.selection.filter (fun s => s != n) := by
      simp only [App.un_select, h]
    have hc1 : n ∉ a.un_select.selection := by
      rw [hsel1]; simp [List.mem_filter]
    have h2 : a.un_select.toggle_selection = a.un_select.select := by
      simp [App.toggle_selection, hf1, hc1]
    have hsel2 : a.un_select.select.selection = a.un_select.selection ++ [n] := by
      simp only [App.select, hf1]
    rw [h1, h2, hsel2]
    simp [hc]
  · have h1 : a.toggle_selection = a.select := by
      simp [App.toggle_selection, h, hc]
    have hf1 : a.select.focused_node = some n :=
      (focused_node_select a).trans h
    have hsel1 : a.select.selection = a.selection ++ [n] := by
      simp only [App.select, h]
    have hc1 : n ∈ a.select.selection := by
      rw [hsel1]; simp
    have h2 : a.select.toggle_selection = a.select.un_select := by
      simp [App.toggle_selection, hf1, hc1]
    have hsel2 : a.select.un_select.selection
        = a.select.selection.filter (fun s => s != n) := by
      simp only [App.un_select, hf1]
    rw [h1, h2, hsel2, hsel1]
    simp [List.mem_filter, hc]

/-- Witness for C7 at a concrete state with a focused entry. -/
theorem toggle_twice_membership_witness :
    testNodeA ∈ appFocusA.toggle_selection.toggle_selection.selection
      ↔ testNodeA ∈ appFocusA.selection :=
  toggle_twice_membership appFocusA testNodeA (by decide)

/-- Looking up the modified key returns the mapped value. -/
theorem lookupStr_modifyStr {α : Type} (m : List (String × α)) (k : String)
    (f : α → α) :
    lookupStr (modifyStr m k f) k = (lookupStr m k).map f := by
  induction m with
  | nil => simp [lookupStr, modifyStr]
  | cons p rest ih =>
    obtain ⟨k1, v⟩ := p
    by_cases hk : k1 = k
    · simp [lookupStr, modifyStr, hk]
    · simp [lookupStr, modifyStr, hk, ih]

/-- Arithmetic helper: clamping below `t.max 1 - 1` stays below `t.max 1`. -/
theorem min_lt_max_one (x t : Nat) : x.min (t.max 1 - 1) < t.max 1 := by
  have h1 : 1 ≤ t.max 1 := Nat.le_max_right t 1
  have h2 : x.min (t.max 1 - 1) ≤ t.max 1 - 1 := Nat.min_le_right _ _
  omega

/-- Arithmetic helper: `t.max 1 - 1` is below `t.max 1`. -/
theorem max_one_sub_one_lt (t : Nat) : t.max 1 - 1 < t.max 1 := by
  have h1 : 1 ≤ t.max 1 := Nat.le_max_right t 1
  omega

/-- Arithmetic helper: `t.max 1` is positive. -/
theorem zero_lt_max_one (t : Nat) : 0 < t.max 1 := by
  have h1 : 1 ≤ t.max 1 := Nat.le_max_right t 1
  omega

/-- Arithmetic helper: stepping back from a focus below the bound stays below
the bound. -/
theorem max_one_prev_lt (f t : Nat) (hb : f < t.max 1) : f.max 1 - 1 < t.max 1 := by
  have h1 : 1 ≤ t.max 1 := Nat.le_max_right t 1
  have h2 : f.max 1 ≤ t.max 1 := Nat.max_le.mpr ⟨Nat.le_of_lt hb, h1⟩
  omega

/-- Arithmetic helper: the saturating subtraction `f.max n - n` never exceeds
`f`. -/
theorem max_sub_le_self (f n : Nat) : f.max n - n ≤ f := by
  have h : f.max n ≤ f + n := Nat.max_le.mpr ⟨Nat.le_add_right f n, Nat.le_add_left n f⟩
  omega

/-- One focus command keeps pwd and selection, keeps the buffer's nodes and
total, and keeps the focus under `total.max 1`. -/
theorem applyFocusCmd_frame (a : App) (c : FocusCmd) :
    (applyFocusCmd a c).pwd = a.pwd ∧
    (applyFocusCmd a c).selection = a.selection ∧
    ∀ d, lookupStr a.directory_buffers a.pwd = some d →
      ∃ d', lookupStr (applyFocusCmd a c).directory_buffers a.pwd = some d' ∧
        d'.nodes = d.nodes ∧ d'.total = d.total ∧
        (d.focus < d.total.max 1 → d'.focus < d.total.max 1) := by
  cases c
  all_goals
    simp only [applyFocusCmd, App.focus_next, App.focus_previous, App.focus_first,
      App.focus_last, App.focus_by_index, App.focus_next_by_relative_index,
      App.focus_previous_by_relative_index]
  all_goals
    cases hl : lookupStr a.directory_buffers a.pwd with
    | none => simp [hl]
    | some d0 =>
      simp only [hl]
      refine ⟨trivial, trivial, ?_⟩
      intro d hd
      obtain rfl : d0 = d := Option.some.inj hd
      rw [lookupStr_modifyStr, hl]
      simp only [Option.map_some']
      refine ⟨_, rfl, rfl, rfl, ?_⟩
      intro hb
      first
        | exact min_lt_max_one _ _
        | exact max_one_sub_one_lt _
        | exact zero_lt_max_one _
        | exact max_one_prev_lt _ _ hb
        | exact Nat.lt_of_le_of_lt (max_sub_le_self _ _) hb

/-- A sequence of focus commands keeps pwd and selection, keeps the buffer's
nodes and total, and keeps the focus under `total.max 1`. -/
theorem applyFocusCmds_frame (a : App) (cs : List FocusCmd) :
    (applyFocusCmds a cs).pwd = a.pwd ∧
    (applyFocusCmds a cs).selection = a.selection ∧
    ∀ d, lookupStr a.directory_buffers a.pwd = some d →
      ∃ d', lookupStr (applyFocusCmds a cs).directory_buffers
          (applyFocusCmds a cs).pwd = some d' ∧
        d'.nodes = d.nodes ∧ d'.total = d.total ∧
        (d.focus < d.total.max 1 → d'.focus < d.total.max 1) := by
  induction cs generalizing a with
  | nil =>
    exact ⟨rfl, rfl, fun d hd => ⟨d, hd, rfl, rfl, fun h => h⟩⟩
  | cons c cs ih =>
    obtain ⟨hp1, hs1, hb1⟩ := applyFocusCmd_frame a c
    obtain ⟨hp2, hs2, hb2⟩ := ih (applyFocusCmd a c)
    refine ⟨?_, ?_, ?_⟩
    · show (applyFocusCmds (applyFocusCmd a c) cs).pwd = a.pwd
      rw [hp2, hp1]
    · show (applyFocusCmds (applyFocusCmd a c) cs).selection = a.selection
      rw [hs2, hs1]
    · intro d hd
      obtain ⟨d1, hd1, hn1, ht1, hf1⟩ := hb1 d hd
      obtain ⟨d2, hd2, hn2, ht2, hf2⟩ := hb2 d1 (by rw [hp1]; exact hd1)
      refine ⟨d2, hd2, hn2.trans hn1, ht2.trans ht1, ?_⟩
      intro hb
      rw [ht1] at hf2
      exact hf2 (hf1 hb)

/-- Claim C3: starting from a buffer with `count = N > 0` and focus in
`[0, N-1]`, any sequence of focus-moving commands keeps the focus in
`[0, N-1]`; starting from an empty buffer with focus 0, the focus stays 0 and
no entry is reported focused. -/
theorem focus_bounds (a : App) (cmds : List FocusCmd) (d : DirectoryBuffer)
    (hd : lookupStr a.directory_buffers a.pwd = some d)
    (hlen : d.total = d.nodes.length) :
    (0 < d.total → d.focus < d.total →
      ∃ d', lookupStr (applyFocusCmds a cmds).directory_buffers
          (applyFocusCmds a cmds).pwd = some d' ∧
        d'.total = d.total ∧ d'.focus < d'.total) ∧
    (d.total = 0 → d.focus = 0 →
      ∃ d', lookupStr (applyFocusCmds a cmds).directory_buffers
          (applyFocusCmds a cmds).pwd = some d' ∧
        d'.focus = 0 ∧ (applyFocusCmds a cmds).focused_node = none) := by
  obtain ⟨hp, hs, hb⟩ := applyFocusCmds_frame a cmds
  obtain ⟨d', hd', hn', ht', hf'⟩ := hb d hd
  constructor
  · intro hpos hfoc
    have hMl : d.total ≤ d.total.max 1 := Nat.le_max_left _ _
    have h1 := hf' (by omega)
    have hm : d.total.max 1 = d.total := max_eq_left (by omega)
    refine ⟨d', hd', ht', ?_⟩
    rw [ht']
    omega
  · intro hz hfoc
    have hMr : 1 ≤ d.total.max 1 := Nat.le_max_right _ _
    have h1 := hf' (by omega)
    have hm : d.total.max 1 = 1 := by
      rw [hz]; exact max_eq_right (Nat.zero_le 1)
    have hfz : d'.focus = 0 := by omega
    have hnil : d.nodes = [] := List.length_eq_zero.mp (by omega)
    refine ⟨d', hd', hfz, ?_⟩
    simp [App.focused_node, App.directory_buffer, hd',
      DirectoryBuffer.focused_node, hn', hnil, hfz]

/-- Witness for C3 at a concrete one-entry buffer and command list. -/
theorem focus_bounds_witness :
    ∃ d', lookupStr
        (applyFocusCmds appFocusA
          [FocusCmd.next, FocusCmd.last, FocusCmd.previous]).directory_buffers
        (applyFocusCmds appFocusA
          [FocusCmd.next, FocusCmd.last, FocusCmd.previous]).pwd = some d' ∧
      d'.total = bufA.total ∧ d'.focus < d'.total :=
  (focus_bounds appFocusA [FocusCmd.next, FocusCmd.last, FocusCmd.previous]
    bufA rfl rfl).1 (by decide) (by decide)

/-- Claim C8: with an empty selection and focus on `/tmp/a.txt` the result
text is `/tmp/a.txt`; after selecting it and the entries `/tmp/b.txt` and
`/tmp/c.txt`, the result text is the three paths joined by newlines, and no
subsequent focus-moving command changes it. -/
theorem result_text_scenario :
    appABC.result_str = "/tmp/a.txt" ∧
    appABCsel.result_str = "/tmp/a.txt\n/tmp/b.txt\n/tmp/c.txt" ∧
    ∀ cmds : List FocusCmd,
      (applyFocusCmds appABCsel cmds).result_str
        = "/tmp/a.txt\n/tmp/b.txt\n/tmp/c.txt" := by
  refine ⟨by decide, by decide, ?_⟩
  intro cmds
  have hsel : (applyFocusCmds appABCsel cmds).selection = appABCsel.selection :=
    (applyFocusCmds_frame appABCsel cmds).2.1
  have hsel2 : appABCsel.selection = [testNodeA, testNodeB, testNodeC] := by decide
  rw [App.result_str, App.result, hsel, hsel2, if_neg (by decide)]
  decide

/-- Folding `enqueue` over a message list appends exactly the tasks built by
`mkKeyTasks` from the current clock. -/
theorem handle_key_fold (key : Key) (msgs : List ExternalMsg) (a : App) :
    (msgs.foldl (fun acc m => acc.enqueue 0 (MsgIn.External m) (some key)) a).tasks
      = a.tasks ++ mkKeyTasks a.clock key msgs := by
  induction msgs generalizing a with
  | nil => simp [mkKeyTasks]
  | cons m ms ih =>
    simp only [List.foldl_cons, mkKeyTasks]
    rw [ih]
    simp [App.enqueue]

/-- Claim C6: key resolution follows the four-tier precedence (exact binding,
category fallback for alphabetic / numeric / special keys, mode default,
empty), and `handle_key` enqueues each resolved message as a priority-0 task
tagged with the originating key, in list order. -/
theorem key_resolution (a : App) (key : Key) :
    (∀ act, lookupStr a.mode.key_bindings.on_key key.to_string = some act →
      resolveMsgs a.mode.key_bindings key = act.messages) ∧
    (lookupStr a.mode.key_bindings.on_key key.to_string = none →
      key.is_alphabet = true →
      ∀ act, a.mode.key_bindings.on_alphabet = some act →
        resolveMsgs a.mode.key_bindings key = act.messages) ∧
    (lookupStr a.mode.key_bindings.on_key key.to_string = none →
      key.is_alphabet = false → key.is_number = true →
      ∀ act, a.mode.key_bindings.on_number = some act →
        resolveMsgs a.mode.key_bindings key = act.messages) ∧
    (lookupStr a.mode.key_bindings.on_key key.to_string = none →
      key.is_alphabet = false → key.is_number = false →
      key.is_special_character = true →
      ∀ act, a.mode.key_bindings.on_special_character = some act →
        resolveMsgs a.mode.key_bindings key = act.messages) ∧
    (lookupStr a.mode.key_bindings.on_key key.to_string = none →
      key.is_alphabet = false → key.is_number = false →
      key.is_special_character = false →
      resolveMsgs a.mode.key_bindings key
        = (a.mode.key_bindings.default.map Action.messages).getD []) ∧
    (lookupStr a.mode.key_bindings.on_key key.to_string = none →
      key.is_alphabet = true → a.mode.key_bindings.on_alphabet = none →
      resolveMsgs a.mode.key_bindings key
        = (a.mode.key_bindings.default.map Action.messages).getD []) ∧
    (lookupStr a.mode.key_bindings.on_key key.to_string = none →
      key.is_alphabet = false → key.is_number = true →
      a.mode.key_bindings.on_number = none →
      resolveMsgs a.mode.key_bindings key
        = (a.mode.key_bindings.default.map Action.messages).getD []) ∧
    (lookupStr a.mode.key_bindings.on_key key.to_string = none →
      key.is_alphabet = false → key.is_number = false →
      key.is_special_character = true →
      a.mode.key_bindings.on_special_character = none →
      resolveMsgs a.mode.key_bindings key
        = (a.mode.key_bindings.default.map Action.messages).getD []) ∧
    (a.handle_key key).tasks
      = a.tasks ++ mkKeyTasks a.clock key (resolveMsgs a.mode.key_bindings key) := by
  refine ⟨?_, ?_, ?_, ?_, ?_, ?_, ?_, ?_, ?_⟩
  · intro act h; simp [resolveMsgs, h]
  · intro h h1 act h2; simp [resolveMsgs, h, h1, h2]
  · intro h h1 h2 act h3; simp [resolveMsgs, h, h1, h2, h3]
  · intro h h1 h2 h3 act h4; simp [resolveMsgs, h, h1, h2, h3, h4]
  · intro h h1 h2 h3; simp [resolveMsgs, h, h1, h2, h3]
  · intro h h1 h2; simp [resolveMsgs, h, h1, h2]
  · intro h h1 h2 h3; simp [resolveMsgs, h, h1, h2, h3]
  · intro h h1 h2 h3 h4; simp [resolveMsgs, h, h1, h2, h3, h4]
  · exact handle_key_fold key (resolveMsgs a.mode.key_bindings key) a

/-- Witness for C6: the exact binding fires and the resolved message is
enqueued. -/
theorem key_resolution_witness :
    resolveMsgs appKeyW.mode.key_bindings keyW = [ExternalMsg.PrintResultAndQuit] ∧
    (appKeyW.handle_key keyW).tasks
      = appKeyW.tasks ++ mkKeyTasks appKeyW.clock keyW
          (resolveMsgs appKeyW.mode.key_bindings keyW) :=
  ⟨(key_resolution appKeyW keyW).1 actW (by decide),
   (key_resolution appKeyW keyW).2.2.2.2.2.2.2.2⟩

/-- The embedded comparator decides `lt` exactly when the second task wins
strictly (smaller priority, or equal priority and strictly earlier stamp). -/
theorem taskCmp_eq_lt_iff (a b : Task) :
    taskCmp a b = .lt ↔
      (b.priority < a.priority ∨
        (b.priority = a.priority ∧ b.created_at < a.created_at)) := by
  unfold taskCmp
  split_ifs with h1 h2 h3 h4 <;> simp_all <;> omega

/-- A strictly smaller task dominates. -/
theorem taskWins_of_lt (a b : Task) (h : taskCmp a b = .lt) : taskWins b a := by
  rw [taskCmp_eq_lt_iff] at h
  constructor
  · rcases h with h | h
    · exact Nat.le_of_lt h
    · exact Nat.le_of_eq h.1
  · intro hp
    rcases h with h | h
    · omega
    · exact Nat.le_of_lt h.2

/-- When the comparator does not decide `lt`, the first task dominates. -/
theorem taskWins_of_not_lt (a b : Task) (h : ¬taskCmp a b = .lt) : taskWins a b := by
  rw [taskCmp_eq_lt_iff] at h
  push_neg at h
  constructor
  · omega
  · intro hp
    omega

/-- Dominance is reflexive. -/
theorem taskWins_rfl (t : Task) : taskWins t t :=
  ⟨Nat.le_refl _, fun _ => Nat.le_refl _⟩

/-- Dominance is transitive. -/
theorem taskWins_trans {a b c : Task} (h1 : taskWins a b) (h2 : taskWins b c) :
    taskWins a c := by
  obtain ⟨p1, q1⟩ := h1
  obtain ⟨p2, q2⟩ := h2
  constructor
  · exact Nat.le_trans p1 p2
  · intro h
    have e1 : a.priority = b.priority := by omega
    have e2 : b.priority = c.priority := by omega
    exact Nat.le_trans (q1 e1) (q2 e2)

/-- The heap pop returns `none` only on the empty list. -/
theorem popMaxTask_eq_none (ts : List Task) (h : popMaxTask ts = none) :
    ts = [] := by
  cases ts with
  | nil => rfl
  | cons t tl =>
    exfalso
    unfold popMaxTask at h
    cases htl : popMaxTask tl with
    | none => simp only [htl] at h; simp at h
    | some pr =>
      obtain ⟨m, r⟩ := pr
      simp only [htl] at h
      by_cases hc : taskCmp t m = .lt
      · rw [if_pos hc] at h; simp at h
      · rw [if_neg hc] at h; simp at h

/-- Whatever the heap pop returns dominates every pending task. -/
theorem popMaxTask_wins (ts : List Task) :
    ∀ t rest, popMaxTask ts = some (t, rest) → ∀ u ∈ ts, taskWins t u := by
  induction ts with
  | nil => intro t rest h; simp [popMaxTask] at h
  | cons hd tl ih =>
    intro t rest h u hu
    unfold popMaxTask at h
    cases htl : popMaxTask tl with
    | none =>
      simp only [htl] at h
      simp only [Option.some.injEq, Prod.mk.injEq] at h
      obtain ⟨rfl, rfl⟩ := h
      have hnil : tl = [] := popMaxTask_eq_none tl htl
      subst hnil
      rcases List.mem_singleton.mp hu with rfl
      exact taskWins_rfl _
    | some pr =>
      obtain ⟨m, r⟩ := pr
      simp only [htl] at h
      by_cases hc : taskCmp hd m = .lt
      · rw [if_pos hc] at h
        simp only [Option.some.injEq, Prod.mk.injEq] at h
        obtain ⟨h1, h2⟩ := h
        rcases List.mem_cons.mp hu with hu1 | hu1
        · rw [← h1, hu1]; exact taskWins_of_lt hd m hc
        · rw [← h1]; exact ih m r htl u hu1
      · rw [if_neg hc] at h
        simp only [Option.some.injEq, Prod.mk.injEq] at h
        obtain ⟨h1, h2⟩ := h
        rcases List.mem_cons.mp hu with hu1 | hu1
        · rw [← h1, hu1]; exact taskWins_rfl _
        · rw [← h1]
          exact taskWins_trans (taskWins_of_not_lt hd m hc) (ih m r htl u hu1)

/-- The heap pop removes exactly one occurrence of the returned task. -/
theorem popMaxTask_decomp (ts : List Task) :
    ∀ t rest, popMaxTask ts = some (t, rest) →
      ∃ l₁ l₂, ts = l₁ ++ t :: l₂ ∧ rest = l₁ ++ l₂ := by
  induction ts with
  | nil => intro t rest h; simp [popMaxTask] at h
  | cons hd tl ih =>
    intro t rest h
    unfold popMaxTask at h
    cases htl : popMaxTask tl with
    | none =>
      simp only [htl] at h
      simp only [Option.some.injEq, Prod.mk.injEq] at h
      obtain ⟨rfl, rfl⟩ := h
      exact ⟨[], tl, rfl, rfl⟩
    | some pr =>
      obtain ⟨m, r⟩ := pr
      simp only [htl] at h
      by_cases hc : taskCmp hd m = .lt
      · rw [if_pos hc] at h
        simp only [Option.some.injEq, Prod.mk.injEq] at h
        obtain ⟨h1, h2⟩ := h
        obtain ⟨l₁, l₂, hh1, hh2⟩ := ih m r htl
        refine ⟨hd :: l₁, l₂, ?_, ?_⟩
        · rw [← h1, hh1]; rfl
        · rw [← h2, hh2]; rfl
      · rw [if_neg hc] at h
        simp only [Option.some.injEq, Prod.mk.injEq] at h
        obtain ⟨h1, h2⟩ := h
        exact ⟨[], tl, by rw [← h1]; rfl, by rw [← h2]; rfl⟩

/-- Unfolding one enqueue step of `enqueueAll`. -/
theorem enqueueAll_cons (a : App) (s : Nat × MsgIn × Option Key)
    (rest : List (Nat × MsgIn × Option Key)) :
    enqueueAll a (s :: rest) = enqueueAll (a.enqueue s.1 s.2.1 s.2.2) rest := rfl

/-- Enqueueing with the monotone clock keeps all stamps below the clock and
the task list strictly increasing in creation stamps. -/
theorem enqueueAll_invariant (specs : List (Nat × MsgIn × Option Key)) :
    ∀ a : App, (∀ u ∈ a.tasks, u.created_at < a.clock) →
      List.Pairwise (fun x y : Task => x.created_at < y.created_at) a.tasks →
      (∀ u ∈ (enqueueAll a specs).tasks, u.created_at < (enqueueAll a specs).clock) ∧
      List.Pairwise (fun x y : Task => x.created_at < y.created_at)
        (enqueueAll a specs).tasks := by
  induction specs with
  | nil => intro a h1 h2; exact ⟨h1, h2⟩
  | cons s rest ih =>
    intro a h1 h2
    rw [enqueueAll_cons]
    apply ih
    · intro u hu
      simp only [App.enqueue] at hu ⊢
      rcases List.mem_append.mp hu with hu | hu
      · exact Nat.lt_succ_of_lt (h1 u hu)
      · rcases List.mem_singleton.mp hu with rfl
        exact Nat.lt_succ_self _
    · simp only [App.enqueue]
      rw [List.pairwise_append]
      refine ⟨h2, by simp, ?_⟩
      intro x hx y hy
      rcases List.mem_singleton.mp hy with rfl
      exact h1 x hx

/-- Claim C1: enqueueing any sequence of requests on a fresh state yields
tasks with strictly increasing creation stamps (enqueue order), and at every
stage of draining (any sublist of the enqueued tasks), the popped task has
minimal priority among the pending tasks and precedes every remaining
equal-priority task in enqueue order; the remainder is again a sublist. -/
theorem scheduler_priority_fifo (a0 : App)
    (specs : List (Nat × MsgIn × Option Key)) (h0 : a0.tasks = []) :
    List.Pairwise (fun x y : Task => x.created_at < y.created_at)
      (enqueueAll a0 specs).tasks ∧
    ∀ ts t rest, ts.Sublist (enqueueAll a0 specs).tasks →
      popMaxTask ts = some (t, rest) →
      (∀ u ∈ ts, t.priority ≤ u.priority) ∧
      (∀ u ∈ rest, t.priority = u.priority → t.created_at < u.created_at) ∧
      rest.Sublist ts := by
  have hinv := enqueueAll_invariant specs a0
    (by rw [h0]; intro u hu; simp at hu) (by rw [h0]; exact List.Pairwise.nil)
  refine ⟨hinv.2, ?_⟩
  intro ts t rest hsub hpop
  have hpw : List.Pairwise (fun x y : Task => x.created_at < y.created_at) ts :=
    hinv.2.sublist hsub
  have hwins := popMaxTask_wins ts t rest hpop
  obtain ⟨l₁, l₂, hts, hrest⟩ := popMaxTask_decomp ts t rest hpop
  refine ⟨fun u hu => (hwins u hu).1, ?_, ?_⟩
  · intro u hu hp
    rw [hrest] at hu
    rw [hts, List.pairwise_append] at hpw
    obtain ⟨hp1, hp2, hp12⟩ := hpw
    rcases List.mem_append.mp hu with hu | hu
    · have h1 : u.created_at < t.created_at :=
        hp12 u hu t (List.mem_cons_self _ _)
      have h2 := (hwins u (by rw [hts]; exact List.mem_append_left _ hu)).2 hp
      omega
    · exact (List.pairwise_cons.mp hp2).1 u hu
  · rw [hts, hrest]
    exact (List.sublist_cons_self t l₂).append_left l₁

/-- Witness for C1 on the spec's [2, 1, 1, 3] scenario: the first-enqueued
priority-1 task pops first. -/
theorem scheduler_priority_fifo_witness :
    (∀ u ∈ tasksW, tW.priority ≤ u.priority) ∧
    (∀ u ∈ restW, tW.priority = u.priority → tW.created_at < u.created_at) ∧
    restW.Sublist tasksW :=
  (scheduler_priority_fifo baseApp specsW rfl).2 tasksW tW restW
    (List.Sublist.refl _) (by decide)

end Xplr
